import Mathlib

/-!
# Verification of the empire release-to-job orchestration core

Shallow embedding of `empire/empire.go` and of the orchestration core it
wires together (Manager, Job Translator, Release Service, scheduler
selection), with theorems settling the specification's claims.

Go maps from process-type names are embedded as association lists with
unique keys; Go's `(T, error)` return pairs are embedded as
`Option T × Option Err` where the claim is about the pair shape, and as
`Except Err T` where only the success/failure split matters.
-/

/-- Error kinds of the spec (§7): validation, optimistic-concurrency
conflict, not-found, and other backend errors. -/
inductive Err where
  | validation : String → Err
  | conflict : Err
  | notFound : Err
  | other : String → Err
deriving Repr, DecidableEq

abbrev ProcessType := String

/-- A process spec: command and desired instance count (spec §3, Formation). -/
structure ProcessSpec where
  command : String
  count : Nat
deriving Repr, DecidableEq

/-- Formation: mapping from process-type name to process spec, embedded as an
association list; the spec requires keys to be unique. -/
abbrev Formation := List (ProcessType × ProcessSpec)

/-- ProcessQuantityMap: sparse mapping from process-type name to a requested
instance count override (spec §3). -/
abbrev ProcessQuantityMap := List (ProcessType × Nat)

/-- Keys of an association list. -/
def alKeys {α β : Type} (l : List (α × β)) : List α := l.map Prod.fst

/-- The stored count for process type `k` in formation `f` (0 if absent). -/
def countOf (f : Formation) (k : ProcessType) : Nat :=
  match f.lookup k with
  | some s => s.count
  | none => 0

/-- Modelled from the spec: `merge(F, Q)` (spec §4.3, §8) — the Formation
merge is repository code not under `src/`; per the spec it sets the count of
every process type mentioned in Q to Q's value and leaves the rest of the
spec (command and count) unchanged. -/
def merge (f : Formation) (q : ProcessQuantityMap) : Formation :=
  f.map (fun p =>
    match q.lookup p.1 with
    | some n => (p.1, { p.2 with count := n })
    | none => p)

/-- A scheduler job specification (spec §4.1): process type, instance index
and command. The app and environment of the spec's job spec are constant over
a single scale operation and carried by the enclosing call, so they are not
repeated per job here. -/
structure Job where
  processType : ProcessType
  index : Nat
  command : String
deriving Repr, DecidableEq

/-- Modelled from the spec: jobs to schedule for one process type (§4.2) —
the Job Translator is repository code not under `src/`; per the spec, when
desired count > existing count it synthesizes job specs for instance indices
`[existing, desired)`. -/
def schedJobs (k : ProcessType) (cmd : String) (existing desired : Nat) : List Job :=
  ((List.range desired).drop existing).map (fun i => ⟨k, i, cmd⟩)

/-- Modelled from the spec: jobs to unschedule for one process type (§4.2) —
when desired count < existing count, the highest-indexed instances are
selected down to the new count, most recently added first (LIFO). -/
def unschedJobs (k : ProcessType) (cmd : String) (existing desired : Nat) : List Job :=
  (((List.range existing).drop desired).reverse).map (fun i => ⟨k, i, cmd⟩)

/-- Modelled from the spec: the Job Translator's diff (§4.2) — for each
process type of the desired Formation, schedule the indices above the
existing count; for each process type of the old Formation, unschedule the
highest indices down to the desired count (0 when the type is absent from
the desired Formation, which unschedules it fully). -/
def translateFormation (oldF newF : Formation) : List Job × List Job :=
  (newF.flatMap (fun p => schedJobs p.1 p.2.command (countOf oldF p.1) p.2.count),
   oldF.flatMap (fun p => unschedJobs p.1 p.2.command p.2.count (countOf newF p.1)))

/-- The instance indices a job list carries for one process type, in order. -/
def indicesFor (jobs : List Job) (k : ProcessType) : List Nat :=
  (jobs.filter (fun j => j.processType == k)).map Job.index

/-- A Config (spec §3): immutable named set of environment variables. -/
structure Config where
  id : String
  vars : List (String × String)
deriving Repr, DecidableEq

/-- A Slug (spec §3): extracted runnable image and the process-type → command
mapping discovered from it. -/
structure Slug where
  id : String
  image : String
  procTypes : List (ProcessType × String)
deriving Repr, DecidableEq

/-- An App (spec §3): unique name. -/
structure App where
  name : String
deriving Repr, DecidableEq

/-- A Release (spec §3): immutable tuple of App, Config reference, Slug
reference, Formation snapshot, per-App version number and description. -/
structure Release where
  app : String
  version : Nat
  configId : String
  slugId : String
  formation : Formation
  desc : String
deriving Repr, DecidableEq

/-- The store's state for one App's orchestration, together with the log of
scheduler calls issued so far: the created Releases, the last-known active
Formation (spec §3 invariants), and the Schedule/Unschedule operations sent
to the Scheduler Abstraction. -/
structure ManagerState where
  releases : List Release
  storedFormation : Formation
  schedCalls : List Job
  unschedCalls : List Job
deriving Repr, DecidableEq

/-- Whether every key of the quantity map names a process type of the
formation. -/
def validQuantities (f : Formation) (qm : ProcessQuantityMap) : Bool :=
  qm.all (fun p => (f.lookup p.1).isSome)

/-- Modelled from the spec: `Manager.ScaleRelease` (§4.3) — the Manager is
repository code not under `src/`; per the spec it validates that every key of
`qm` exists in `formation` (failing with a ValidationError otherwise, before
any scheduler call), merges `qm` into `formation`, diffs against the store's
last-known Formation, applies the diff through the scheduler, and persists
the desired Formation. Returns the resulting state paired with the Go error
value. -/
def scaleRelease (st : ManagerState) (_release : Release) (_config : Config)
    (_slug : Slug) (formation : Formation) (qm : ProcessQuantityMap) :
    ManagerState × Option Err :=
  if validQuantities formation qm then
    let desired := merge formation qm
    let diff := translateFormation st.storedFormation desired
    ({ st with storedFormation := desired,
               schedCalls := st.schedCalls ++ diff.1,
               unschedCalls := st.unschedCalls ++ diff.2 }, none)
  else
    (st, some (Err.validation "found process type that does not exist"))

/-- The highest Release version recorded for an App (0 when it has none). -/
def maxVersion (rs : List Release) (app : String) : Nat :=
  ((rs.filter (fun r => r.app == app)).map Release.version).foldr max 0

/-- The most recently created Release of an App (releases are stored newest
first). -/
def latestRelease (rs : List Release) (app : String) : Option Release :=
  rs.find? (fun r => r.app == app)

/-- Modelled from the spec: the initial Formation of an App's first Release
(§4.5) — derived from the Slug's discovered process types, count 1 for the
designated default process type "web" and 0 for others. -/
def slugFormation (s : Slug) : Formation :=
  s.procTypes.map (fun p => (p.1, ⟨p.2, if p.1 == "web" then 1 else 0⟩))

/-- Modelled from the spec: the store's insert of a Release under the
uniqueness constraint on (App, version) (§4.5) — a second insert of an
already-taken (App, version) pair fails with a ConflictError. -/
def insertRelease (rs : List Release) (r : Release) : Except Err (List Release) :=
  if rs.any (fun r0 => r0.app == r.app && r0.version == r.version) then
    .error .conflict
  else
    .ok (r :: rs)

/-- Modelled from the spec: `ReleasesCreate` (§4.5) — the Release Service is
repository code not under `src/`; per the spec it reads the highest existing
version for the App and increments it, derives the Formation from the prior
Release (or from the Slug for a first Release), and inserts the new Release
under the store's (App, version) uniqueness constraint. It schedules
nothing. -/
def releasesCreate (rs : List Release) (app : String) (config : Config)
    (slug : Slug) (desc : String) : Except Err (Release × List Release) :=
  let v := maxVersion rs app + 1
  let form :=
    match latestRelease rs app with
    | some prev => prev.formation
    | none => slugFormation slug
  let r : Release := ⟨app, v, config.id, slug.id, form, desc⟩
  match insertRelease rs r with
  | .error e => .error e
  | .ok rs' => .ok (r, rs')

/-- No two Releases of one App share a version (spec §3, §8). -/
def UniqueVersions (rs : List Release) : Prop :=
  ∀ r1 ∈ rs, ∀ r2 ∈ rs, r1.app = r2.app → r1.version = r2.version → r1 = r2

/-- A parsed URL (Go `net/url.URL`), abstracted to its text. -/
structure URL where
  raw : String
deriving Repr, DecidableEq

/-- A container scheduler (`container.Scheduler`): either the in-memory fake
or the networked fleet backend built from a URL. -/
inductive Scheduler where
  | fake : Scheduler
  | fleet : URL → Scheduler
deriving Repr, DecidableEq

/-- Modelled from the spec: `container.NewFakeScheduler` (§4.1, §9) — the
container package is repository code not under `src/`; it builds the
deterministic in-memory fake scheduler. -/
def NewFakeScheduler : Scheduler := .fake

/-- Modelled from the spec: `container.NewFleetScheduler` (§4.1) — builds the
networked fleet backend from the parsed URL, as a Go `(value, error)`
pair. -/
def NewFleetScheduler (u : URL) : Option Scheduler × Option Err :=
  (some (.fleet u), none)

/-- Embedding of `newScheduler` (empire.go lines 268–279). Go's `url.Parse`
is standard-library code, passed in as `parse`; on a nil error it always
yields a URL, hence the `Except` shape. The result is the Go
`(Scheduler, error)` pair. -/
def newScheduler (parse : String → Except Err URL) (fleetURL : String) :
    Option Scheduler × Option Err :=
  if fleetURL = "fake" then
    (some NewFakeScheduler, none)
  else
    match parse fleetURL with
    | .error e => (none, some e)
    | .ok u => NewFleetScheduler u

/-- An access token (`AccessToken`), out of core scope. -/
structure AccessToken where
  token : String
deriving Repr, DecidableEq

/-- An observed job state (spec §3): process type, instance index and
lifecycle status for one running instance. -/
structure JobState where
  processType : ProcessType
  index : Nat
  status : String
deriving Repr, DecidableEq

/-- Environment-variable changes applied to a Config (`Vars`). -/
abbrev Vars := List (String × String)

/-- The `Store`'s methods used by the facade (empire.go): Go struct methods
are embedded as function-valued fields, since their implementations are in
other files of the repository. -/
structure StoreOps where
  AppsAll : Unit → Except Err (List App)
  AppsCreate : App → Except Err App
  AppsFind : String → Except Err App
  ConfigsFind : String → Except Err Config
  ProcessesAll : Release → Except Err Formation
  ReleasesFindByApp : App → Except Err (List Release)
  ReleasesFindByAppAndVersion : App → Nat → Except Err Release
  ReleasesLast : App → Except Err Release
  SlugsFind : String → Except Err Slug
  Reset : Unit → Option Err

/-- The `AccessTokensService`'s methods used by the facade. -/
structure AccessTokensOps where
  AccessTokensFind : String → Except Err AccessToken
  AccessTokensCreate : AccessToken → Except Err AccessToken

/-- The `AppsService`'s methods used by the facade. -/
structure AppsOps where
  AppsDestroy : App → Option Err

/-- The `ConfigsService`'s methods used by the facade. -/
structure ConfigsOps where
  ConfigsCurrent : App → Except Err Config
  ConfigsApply : App → Vars → Except Err Config

/-- The `JobStatesService`'s methods used by the facade. -/
structure JobStatesOps where
  JobStatesByApp : App → Except Err (List JobState)

/-- The `Manager`'s methods used by the facade. -/
structure ManagerOps where
  ScaleRelease : Release → Config → Slug → Formation → ProcessQuantityMap → Option Err

/-- The `ReleasesService`'s methods used by the facade. -/
structure ReleasesOps where
  ReleasesCreate : App → Config → Slug → String → Except Err Release

/-- The `Empire` context object (empire.go lines 54–67): a collection of
services, each embedded by its method record. -/
structure GoEmpire where
  Store : StoreOps
  AccessTokens : AccessTokensOps
  Apps : AppsOps
  Configs : ConfigsOps
  JobStates : JobStatesOps
  Manager : ManagerOps
  Releases : ReleasesOps

/-- Facade method `Empire.AccessTokensFind` (empire.go lines 156–159). -/
def GoEmpire.AccessTokensFind (e : GoEmpire) (token : String) : Except Err AccessToken :=
  e.AccessTokens.AccessTokensFind token

/-- Facade method `Empire.AccessTokensCreate` (empire.go lines 161–164). -/
def GoEmpire.AccessTokensCreate (e : GoEmpire) (accessToken : AccessToken) : Except Err AccessToken :=
  e.AccessTokens.AccessTokensCreate accessToken

/-- Facade method `Empire.AppsAll` (empire.go lines 166–169). -/
def GoEmpire.AppsAll (e : GoEmpire) : Except Err (List App) :=
  e.Store.AppsAll ()

/-- Facade method `Empire.AppsCreate` (empire.go lines 171–174). -/
def GoEmpire.AppsCreate (e : GoEmpire) (app : App) : Except Err App :=
  e.Store.AppsCreate app

/-- Facade method `Empire.AppsFind` (empire.go lines 176–179). -/
def GoEmpire.AppsFind (e : GoEmpire) (name : String) : Except Err App :=
  e.Store.AppsFind name

/-- Facade method `Empire.AppsDestroy` (empire.go lines 181–184). -/
def GoEmpire.AppsDestroy (e : GoEmpire) (app : App) : Option Err :=
  e.Apps.AppsDestroy app

/-- Facade method `Empire.ConfigsCurrent` (empire.go lines 186–189). -/
def GoEmpire.ConfigsCurrent (e : GoEmpire) (app : App) : Except Err Config :=
  e.Configs.ConfigsCurrent app

/-- Facade method `Empire.ConfigsApply` (empire.go lines 191–195). -/
def GoEmpire.ConfigsApply (e : GoEmpire) (app : App) (vars : Vars) : Except Err Config :=
  e.Configs.ConfigsApply app vars

/-- Facade method `Empire.ConfigsFind` (empire.go lines 197–200). -/
def GoEmpire.ConfigsFind (e : GoEmpire) (id : String) : Except Err Config :=
  e.Store.ConfigsFind id

/-- Facade method `Empire.JobStatesByApp` (empire.go lines 202–205). -/
def GoEmpire.JobStatesByApp (e : GoEmpire) (app : App) : Except Err (List JobState) :=
  e.JobStates.JobStatesByApp app

/-- Facade method `Empire.ProcessesAll` (empire.go lines 207–210). -/
def GoEmpire.ProcessesAll (e : GoEmpire) (release : Release) : Except Err Formation :=
  e.Store.ProcessesAll release

/-- Facade method `Empire.ReleasesCreate` (empire.go lines 212–215). -/
def GoEmpire.ReleasesCreate (e : GoEmpire) (app : App) (config : Config)
    (slug : Slug) (desc : String) : Except Err Release :=
  e.Releases.ReleasesCreate app config slug desc

/-- Facade method `Empire.ReleasesFindByApp` (empire.go lines 217–220). -/
def GoEmpire.ReleasesFindByApp (e : GoEmpire) (app : App) : Except Err (List Release) :=
  e.Store.ReleasesFindByApp app

/-- Facade method `Empire.ReleasesFindByAppAndVersion` (empire.go lines 222–225). -/
def GoEmpire.ReleasesFindByAppAndVersion (e : GoEmpire) (app : App) (version : Nat) : Except Err Release :=
  e.Store.ReleasesFindByAppAndVersion app version

/-- Facade method `Empire.ReleasesLast` (empire.go lines 227–230). -/
def GoEmpire.ReleasesLast (e : GoEmpire) (app : App) : Except Err Release :=
  e.Store.ReleasesLast app

/-- Facade method `Empire.ScaleRelease` (empire.go lines 232–235). -/
def GoEmpire.ScaleRelease (e : GoEmpire) (release : Release) (config : Config)
    (slug : Slug) (formation : Formation) (qm : ProcessQuantityMap) : Option Err :=
  e.Manager.ScaleRelease release config slug formation qm

/-- Facade method `Empire.SlugsFind` (empire.go lines 237–240). -/
def GoEmpire.SlugsFind (e : GoEmpire) (id : String) : Except Err Slug :=
  e.Store.SlugsFind id

/-- Facade method `Empire.Reset` (empire.go lines 242–245). -/
def GoEmpire.Reset (e : GoEmpire) : Option Err :=
  e.Store.Reset ()

/-- A database handle (result of `newDB`). -/
structure DB where
  connStr : String
deriving Repr, DecidableEq

/-- A slug extractor (result of `NewExtractor`). -/
structure Extractor where
  socket : String
  certPath : String
deriving Repr, DecidableEq

/-- `DockerOptions` (empire.go lines 23–35); the registry credentials are
abstracted to key/value pairs. -/
structure DockerOptions where
  Organization : String
  Socket : String
  CertPath : String
  Auth : List (String × String)
deriving Repr, DecidableEq

/-- `FleetOptions` (empire.go lines 38–41). -/
structure FleetOptions where
  API : String
deriving Repr, DecidableEq

/-- `Options` (empire.go lines 44–52). -/
structure Options where
  Docker : DockerOptions
  Fleet : FleetOptions
  Secret : String
  DB : String
deriving Repr, DecidableEq

/-- `Store` as constructed by `New` (dependency record; Go pointer fields are
embedded as `Option`). -/
structure StoreC where
  db : Option DB
deriving Repr, DecidableEq

/-- `AccessTokensService` as constructed by `New`. -/
structure AccessTokensServiceC where
  Secret : String
deriving Repr, DecidableEq

/-- `ConfigsService` as constructed by `New`. -/
structure ConfigsServiceC where
  store : StoreC
deriving Repr, DecidableEq

/-- `JobsService` as constructed by `New`. -/
structure JobsServiceC where
  store : StoreC
  scheduler : Option Scheduler
deriving Repr, DecidableEq

/-- `JobStatesService` as constructed by `New`. -/
structure JobStatesServiceC where
  store : StoreC
  scheduler : Option Scheduler
deriving Repr, DecidableEq

/-- `AppsService` as constructed by `New`. -/
structure AppsServiceC where
  store : StoreC
  JobsService : JobsServiceC
deriving Repr, DecidableEq

/-- `Manager` as constructed by `New`. -/
structure ManagerC where
  JobsService : JobsServiceC
  store : StoreC
deriving Repr, DecidableEq

/-- `ReleasesService` as constructed by `New`. -/
structure ReleasesServiceC where
  store : StoreC
  manager : ManagerC
deriving Repr, DecidableEq

/-- `SlugsService` as constructed by `New`. -/
structure SlugsServiceC where
  store : StoreC
  extractor : Option Extractor
deriving Repr, DecidableEq

/-- `imageDeployer` as constructed by `New`. -/
structure ImageDeployerC where
  AppsService : AppsServiceC
  ConfigsService : ConfigsServiceC
  SlugsService : SlugsServiceC
  ReleasesService : ReleasesServiceC
deriving Repr, DecidableEq

/-- `commitDeployer` as constructed by `New`. -/
structure CommitDeployerC where
  Organization : String
  ImageDeployer : ImageDeployerC
  appsService : AppsServiceC
deriving Repr, DecidableEq

/-- The `Empire` value built by `New` (empire.go lines 143–153), with each
service recorded by its constructor arguments. -/
structure EmpireC where
  Store : StoreC
  AccessTokens : AccessTokensServiceC
  Apps : AppsServiceC
  Configs : ConfigsServiceC
  JobStates : JobStatesServiceC
  Manager : ManagerC
  Releases : ReleasesServiceC
  Slugs : SlugsServiceC
  DeploysService : CommitDeployerC
deriving Repr, DecidableEq

/-- The external collaborators `New` calls: `newDB` and `NewExtractor` are
repository code not under `src/` and `url.Parse` is standard-library code,
so each is passed in. The first two follow Go's `(value, error)` pair
shape. -/
structure Env where
  newDB : String → Option DB × Option Err
  parseURL : String → Except Err URL
  NewExtractor : String → String → List (String × String) → Option Extractor × Option Err

/-- Embedding of `New` (empire.go lines 70–154): each fallible collaborator
is checked in source order with an early `(nil, err)` return, then the
services are wired from the single `store`, `scheduler` and `extractor`
values and the Empire struct literal is returned with a nil error. -/
def New (env : Env) (options : Options) : Option EmpireC × Option Err :=
  match env.newDB options.DB with
  | (_, some e) => (none, some e)
  | (dbv, none) =>
    let store : StoreC := ⟨dbv⟩
    match newScheduler env.parseURL options.Fleet.API with
    | (_, some e) => (none, some e)
    | (schedulerv, none) =>
      match env.NewExtractor options.Docker.Socket options.Docker.CertPath options.Docker.Auth with
      | (_, some e) => (none, some e)
      | (extractorv, none) =>
        let accessTokens : AccessTokensServiceC := ⟨options.Secret⟩
        let configs : ConfigsServiceC := ⟨store⟩
        let jobs : JobsServiceC := ⟨store, schedulerv⟩
        let jobStates : JobStatesServiceC := ⟨store, schedulerv⟩
        let apps : AppsServiceC := ⟨store, jobs⟩
        let manager : ManagerC := ⟨jobs, store⟩
        let releases : ReleasesServiceC := ⟨store, manager⟩
        let slugs : SlugsServiceC := ⟨store, extractorv⟩
        let imageDeployer : ImageDeployerC := ⟨apps, configs, slugs, releases⟩
        let commitDeployer : CommitDeployerC :=
          ⟨options.Docker.Organization, imageDeployer, apps⟩
        (some ⟨store, accessTokens, apps, configs, jobStates, manager,
               releases, slugs, commitDeployer⟩, none)

/-- Unfolding `merge` on a cons cell. -/
theorem merge_cons (hd : ProcessType × ProcessSpec) (tl : Formation)
    (q : ProcessQuantityMap) :
    merge (hd :: tl) q =
      (match q.lookup hd.1 with
       | some n => (hd.1, { hd.2 with count := n })
       | none => hd) :: merge tl q := rfl

/-- `merge` does not change the key sequence of the formation. -/
theorem merge_keys (f : Formation) (q : ProcessQuantityMap) :
    alKeys (merge f q) = alKeys f := by
  induction f with
  | nil => rfl
  | cons hd tl ih =>
    rw [merge_cons]
    cases hq : List.lookup hd.1 q <;> simp [alKeys, hq] <;>
      simpa [alKeys] using ih

/-- If a key has a binding in an association list, it is among its keys. -/
theorem mem_alKeys_of_lookup {β : Type} (l : List (ProcessType × β))
    (k : ProcessType) (v : β) (h : l.lookup k = some v) : k ∈ alKeys l := by
  induction l with
  | nil => cases h
  | cons hd tl ih =>
    by_cases hk : k = hd.1
    · subst hk; exact List.mem_map_of_mem Prod.fst (List.mem_cons_self hd tl)
    · have hne : (k == hd.1) = false := beq_false_of_ne hk
      simp only [List.lookup, hne] at h
      exact List.mem_cons_of_mem hd.1 (ih h)

/-- Lookup in a merged formation: absent from Q leaves the entry as in F;
present in Q rewrites the count, keeping the command. -/
theorem merge_lookup (f : Formation) (q : ProcessQuantityMap) (k : ProcessType) :
    (q.lookup k = none → (merge f q).lookup k = f.lookup k) ∧
    (∀ n spec, q.lookup k = some n → f.lookup k = some spec →
      (merge f q).lookup k = some { spec with count := n }) := by
  induction f with
  | nil => exact ⟨fun _ => rfl, fun n spec _ h => by cases h⟩
  | cons hd tl ih =>
    rw [merge_cons]
    constructor
    · intro hq
      by_cases hk : k = hd.1
      · subst hk
        simp [List.lookup, hq]
      · have hne : (k == hd.1) = false := beq_false_of_ne hk
        cases hq2 : List.lookup hd.1 q <;>
          simp [List.lookup, hne, ih.1 hq]
    · intro n spec hq hf
      by_cases hk : k = hd.1
      · subst hk
        simp only [List.lookup, beq_self_eq_true, Option.some.injEq] at hf
        simp [List.lookup, hq, ← hf]
      · have hne : (k == hd.1) = false := beq_false_of_ne hk
        simp only [List.lookup, hne] at hf
        cases hq2 : List.lookup hd.1 q <;>
          simp [List.lookup, hne, ih.2 n spec hq hf]

/-- C4: For every Formation F and ProcessQuantityMap Q whose keys are all
process types of F, merge(F, Q) leaves every process type of F not mentioned
in Q with its spec (command and count) unchanged, and sets the count of every
process type mentioned in Q to Q's value. -/
theorem C4_merge_correct (f : Formation) (q : ProcessQuantityMap)
    (hq : ∀ k ∈ alKeys q, (f.lookup k).isSome) :
    (∀ k, q.lookup k = none → (merge f q).lookup k = f.lookup k) ∧
    (∀ k n, q.lookup k = some n → ∃ spec, f.lookup k = some spec ∧
      (merge f q).lookup k = some ⟨spec.command, n⟩) := by
  constructor
  · intro k h
    exact (merge_lookup f q k).1 h
  · intro k n h
    have hk : k ∈ alKeys q := mem_alKeys_of_lookup q k n h
    have hsome := hq k hk
    cases hf : f.lookup k with
    | none => rw [hf] at hsome; cases hsome
    | some spec =>
      exact ⟨spec, rfl, (merge_lookup f q k).2 n spec h hf⟩

/-- Witness for C4 at a concrete formation and quantity map. -/
theorem C4_merge_correct_witness :
    (∀ k ∈ alKeys [("web", 3)],
      (List.lookup k [("web", ProcessSpec.mk "./run" 1), ("worker", ProcessSpec.mk "./w" 2)]).isSome) ∧
    ((merge [("web", ProcessSpec.mk "./run" 1), ("worker", ProcessSpec.mk "./w" 2)]
        [("web", 3)]).lookup "worker" = some (ProcessSpec.mk "./w" 2) ∧
     (merge [("web", ProcessSpec.mk "./run" 1), ("worker", ProcessSpec.mk "./w" 2)]
        [("web", 3)]).lookup "web" = some (ProcessSpec.mk "./run" 3)) := by
  refine ⟨by decide, ?_, ?_⟩
  · have h := (C4_merge_correct
      [("web", ProcessSpec.mk "./run" 1), ("worker", ProcessSpec.mk "./w" 2)]
      [("web", 3)] (by decide)).1 "worker" (by decide)
    simpa using h
  · have h := (C4_merge_correct
      [("web", ProcessSpec.mk "./run" 1), ("worker", ProcessSpec.mk "./w" 2)]
      [("web", 3)] (by decide)).2 "web" 3 (by decide)
    obtain ⟨spec, hf, hm⟩ := h
    have : spec = ProcessSpec.mk "./run" 1 := by
      simpa using hf.symm
    subst this
    simpa using hm

/-- If lookup finds a binding, that pair is an element of the list. -/
theorem lookup_mem {β : Type} (l : List (ProcessType × β)) (k : ProcessType)
    (v : β) (h : l.lookup k = some v) : (k, v) ∈ l := by
  induction l with
  | nil => cases h
  | cons hd tl ih =>
    obtain ⟨a, b⟩ := hd
    by_cases hk : k = a
    · subst hk
      simp only [List.lookup, beq_self_eq_true] at h
      injection h with h
      subst h
      exact List.mem_cons_self _ _
    · have hne : (k == a) = false := beq_false_of_ne hk
      simp only [List.lookup, hne] at h
      exact List.mem_cons_of_mem _ (ih h)

/-- A key among the keys of an association list has a binding. -/
theorem lookup_isSome_of_mem_keys {β : Type} (l : List (ProcessType × β))
    (k : ProcessType) (h : k ∈ alKeys l) : (l.lookup k).isSome := by
  induction l with
  | nil => simp [alKeys] at h
  | cons hd tl ih =>
    obtain ⟨a, b⟩ := hd
    by_cases hk : k = a
    · subst hk
      simp [List.lookup]
    · have hne : (k == a) = false := beq_false_of_ne hk
      simp only [alKeys, List.map_cons, List.mem_cons] at h
      rcases h with h | h
      · exact absurd h hk
      · simp only [List.lookup, hne]
        exact ih (by simpa [alKeys] using h)

/-- With unique keys, lookup returns the binding of any member pair. -/
theorem lookup_of_nodup {β : Type} (l : List (ProcessType × β))
    (hnd : (alKeys l).Nodup) (k : ProcessType) (v : β) (hm : (k, v) ∈ l) :
    l.lookup k = some v := by
  induction l with
  | nil => cases hm
  | cons hd tl ih =>
    obtain ⟨a, b⟩ := hd
    simp only [alKeys, List.map_cons, List.nodup_cons] at hnd
    rcases List.mem_cons.mp hm with h | h
    · injection h with h1 h2
      subst h1; subst h2
      simp [List.lookup]
    · by_cases hk : k = a
      · subst hk
        exact absurd (List.mem_map_of_mem Prod.fst h) hnd.1
      · have hne : (k == a) = false := beq_false_of_ne hk
        simp only [List.lookup, hne]
        exact ih hnd.2 h

/-- Dropping the first `e` indices of `range d` leaves the contiguous block
`[e, d)`. -/
theorem drop_range (e d : Nat) : (List.range d).drop e = List.range' e (d - e) := by
  rcases le_or_lt e d with h | h
  · have hsplit : List.range d = List.range' 0 e ++ List.range' e (d - e) := by
      rw [List.range_eq_range']
      have h2 := List.range'_append 0 e (d - e) 1
      simp only [Nat.mul_one, Nat.zero_add, Nat.one_mul] at h2
      rw [h2]
      congr 1
      omega
    rw [hsplit, List.drop_append_of_le_length (by simp),
        List.drop_of_length_le (by simp)]
    simp
  · rw [List.drop_of_length_le (by simpa using Nat.le_of_lt h),
        Nat.sub_eq_zero_of_le (Nat.le_of_lt h)]
    rfl

/-- Jobs produced per formation entry carry that entry's process type, so
filtering a keyed flatMap for an absent key leaves nothing. -/
theorem keyed_flatMap_filter_nil (f : Formation)
    (g : ProcessType → ProcessSpec → List Job)
    (hg : ∀ k s j, j ∈ g k s → j.processType = k) (k : ProcessType)
    (hk : k ∉ alKeys f) :
    (f.flatMap (fun p => g p.1 p.2)).filter (fun j => j.processType == k) = [] := by
  induction f with
  | nil => rfl
  | cons hd tl ih =>
    have hk' : ¬(k = hd.1 ∨ k ∈ alKeys tl) := by simpa [alKeys] using hk
    push_neg at hk'
    rw [List.flatMap_cons, List.filter_append]
    have h1 : (g hd.1 hd.2).filter (fun j => j.processType == k) = [] := by
      refine List.filter_eq_nil_iff.mpr (fun j hj => ?_)
      rw [hg hd.1 hd.2 j hj]
      simp [Ne.symm hk'.1]
    rw [h1, ih hk'.2, List.nil_append]

/-- Filtering a keyed flatMap for a key with unique occurrence isolates that
entry's jobs. -/
theorem keyed_flatMap_filter (f : Formation)
    (g : ProcessType → ProcessSpec → List Job)
    (hg : ∀ k s j, j ∈ g k s → j.processType = k) (k : ProcessType)
    (spec : ProcessSpec) (hnd : (alKeys f).Nodup) (hm : (k, spec) ∈ f) :
    (f.flatMap (fun p => g p.1 p.2)).filter (fun j => j.processType == k) = g k spec := by
  induction f with
  | nil => cases hm
  | cons hd tl ih =>
    obtain ⟨a, b⟩ := hd
    simp only [alKeys, List.map_cons, List.nodup_cons] at hnd
    rw [List.flatMap_cons, List.filter_append]
    rcases List.mem_cons.mp hm with h | h
    · injection h with h1 h2
      subst h1; subst h2
      have h1 : (g k spec).filter (fun j => j.processType == k) = g k spec :=
        List.filter_eq_self.mpr (fun j hj => by rw [hg k spec j hj]; simp)
      have h2 : (tl.flatMap (fun p => g p.1 p.2)).filter
          (fun j => j.processType == k) = [] :=
        keyed_flatMap_filter_nil tl g hg k (by simpa [alKeys] using hnd.1)
      rw [h1, h2, List.append_nil]
    · have hka : k ≠ a := by
        intro hEq
        subst hEq
        exact hnd.1 (List.mem_map_of_mem Prod.fst h)
      have h1 : (g a b).filter (fun j => j.processType == k) = [] := by
        refine List.filter_eq_nil_iff.mpr (fun j hj => ?_)
        rw [hg a b j hj]
        simp [Ne.symm hka]
      rw [h1, List.nil_append]
      exact ih hnd.2 h

/-- Every scheduled job of one process type carries that type. -/
theorem schedJobs_types (oldF : Formation) :
    ∀ (k : ProcessType) (s : ProcessSpec) (j : Job),
      j ∈ schedJobs k s.command (countOf oldF k) s.count →
      j.processType = k := by
  intro k s j hj
  simp only [schedJobs, List.mem_map] at hj
  obtain ⟨i, _, rfl⟩ := hj
  rfl

/-- Every unscheduled job of one process type carries that type. -/
theorem unschedJobs_types (newF : Formation) :
    ∀ (k : ProcessType) (s : ProcessSpec) (j : Job),
      j ∈ unschedJobs k s.command s.count (countOf newF k) →
      j.processType = k := by
  intro k s j hj
  simp only [unschedJobs, List.mem_map] at hj
  obtain ⟨i, _, rfl⟩ := hj
  rfl

/-- Indices the translator schedules for a process type of the desired
formation. -/
theorem indicesFor_sched (oldF newF : Formation) (hnew : (alKeys newF).Nodup)
    (k : ProcessType) (spec : ProcessSpec) (hk : newF.lookup k = some spec) :
    indicesFor (translateFormation oldF newF).1 k
      = List.range' (countOf oldF k) (spec.count - countOf oldF k) := by
  unfold translateFormation indicesFor
  dsimp only
  rw [keyed_flatMap_filter newF _ (schedJobs_types oldF) k spec hnew
        (lookup_mem newF k spec hk)]
  unfold schedJobs
  rw [List.map_map]
  have : (Job.index ∘ fun i => Job.mk k i spec.command) = id := rfl
  rw [this, List.map_id, drop_range]

/-- The translator unschedules nothing for a process type absent from the old
formation. -/
theorem indicesFor_unsched_absent (oldF newF : Formation) (k : ProcessType)
    (hk : oldF.lookup k = none) :
    indicesFor (translateFormation oldF newF).2 k = [] := by
  unfold translateFormation indicesFor
  dsimp only
  rw [keyed_flatMap_filter_nil oldF _ (unschedJobs_types newF) k]
  · rfl
  · intro hmem
    have := lookup_isSome_of_mem_keys oldF k hmem
    rw [hk] at this
    cases this

/-- Indices the translator unschedules for a process type of the old
formation. -/
theorem indicesFor_unsched (oldF newF : Formation) (hold : (alKeys oldF).Nodup)
    (k : ProcessType) (ospec : ProcessSpec) (hk : oldF.lookup k = some ospec) :
    indicesFor (translateFormation oldF newF).2 k
      = (List.range' (countOf newF k) (ospec.count - countOf newF k)).reverse := by
  unfold translateFormation indicesFor
  dsimp only
  rw [keyed_flatMap_filter oldF _ (unschedJobs_types newF) k ospec hold
        (lookup_mem oldF k ospec hk)]
  unfold unschedJobs
  rw [List.map_map]
  have : (Job.index ∘ fun i => Job.mk k i ospec.command) = id := rfl
  rw [this, List.map_id, drop_range]

/-- Keeping only the indices below `D` of the contiguous block `[0, E)`
leaves the contiguous block `[0, D)`. -/
theorem filter_lt_range (D E : Nat) (h : D ≤ E) :
    (List.range E).filter (fun i => decide (i < D)) = List.range D := by
  induction E with
  | zero =>
    have : D = 0 := Nat.le_zero.mp h
    subst this
    rfl
  | succ m ih =>
    rcases Nat.lt_or_ge m D with hm | hm
    · have hD : D = m + 1 := Nat.le_antisymm h (Nat.succ_le_of_lt hm)
      subst hD
      exact List.filter_eq_self.mpr (fun a ha => by
        simpa using List.mem_range.mp ha)
    · rw [List.range_succ, List.filter_append, ih hm]
      have hnil : List.filter (fun i => decide (i < D)) [m] = [] := by
        simp [Nat.not_lt.mpr hm]
      rw [hnil, List.append_nil]

/-- C2: for every process type, diffing an old Formation with existing count
E against a desired count D schedules exactly the contiguous new indices
[E, D) when D > E (so scaling up from 0 yields [0, D) with no gaps), and when
D < E unschedules exactly the E - D highest indices in descending order,
leaving [0, D) contiguous. -/
theorem C2_translator_diff (oldF newF : Formation)
    (hold : (alKeys oldF).Nodup) (hnew : (alKeys newF).Nodup)
    (k : ProcessType) (spec : ProcessSpec) (hk : newF.lookup k = some spec) :
    (countOf oldF k < spec.count →
       indicesFor (translateFormation oldF newF).1 k
         = List.range' (countOf oldF k) (spec.count - countOf oldF k) ∧
       indicesFor (translateFormation oldF newF).2 k = []) ∧
    (countOf oldF k = 0 →
       indicesFor (translateFormation oldF newF).1 k = List.range spec.count) ∧
    (spec.count < countOf oldF k →
       indicesFor (translateFormation oldF newF).2 k
         = (List.range' spec.count (countOf oldF k - spec.count)).reverse ∧
       indicesFor (translateFormation oldF newF).1 k = [] ∧
       (List.range (countOf oldF k)).filter
         (fun i => decide (i ∉ indicesFor (translateFormation oldF newF).2 k))
         = List.range spec.count) := by
  have hD : countOf newF k = spec.count := by simp [countOf, hk]
  refine ⟨fun hup => ⟨indicesFor_sched oldF newF hnew k spec hk, ?_⟩,
          fun h0 => ?_, fun hdown => ?_⟩
  · cases ho : oldF.lookup k with
    | none => exact indicesFor_unsched_absent oldF newF k ho
    | some ospec =>
      have hE : countOf oldF k = ospec.count := by simp [countOf, ho]
      rw [indicesFor_unsched oldF newF hold k ospec ho, hD]
      have : ospec.count - spec.count = 0 := by omega
      rw [this]
      rfl
  · rw [indicesFor_sched oldF newF hnew k spec hk, h0, Nat.sub_zero]
    rw [List.range_eq_range']
  · have ho : ∃ ospec, oldF.lookup k = some ospec := by
      cases hlo : oldF.lookup k with
      | none => simp [countOf, hlo] at hdown
      | some ospec => exact ⟨ospec, rfl⟩
    obtain ⟨ospec, ho⟩ := ho
    have hE : countOf oldF k = ospec.count := by simp [countOf, ho]
    have hu : indicesFor (translateFormation oldF newF).2 k
        = (List.range' spec.count (countOf oldF k - spec.count)).reverse := by
      rw [indicesFor_unsched oldF newF hold k ospec ho, hD, hE]
    refine ⟨hu, ?_, ?_⟩
    · rw [indicesFor_sched oldF newF hnew k spec hk]
      have : spec.count - countOf oldF k = 0 := by omega
      rw [this]
      rfl
    · rw [hu]
      have hcong : (List.range (countOf oldF k)).filter
          (fun i => decide (i ∉ (List.range' spec.count (countOf oldF k - spec.count)).reverse))
          = (List.range (countOf oldF k)).filter (fun i => decide (i < spec.count)) := by
        refine List.filter_congr (fun i hi => ?_)
        have hiE : i < countOf oldF k := List.mem_range.mp hi
        have hmem : i ∈ (List.range' spec.count (countOf oldF k - spec.count)).reverse
            ↔ spec.count ≤ i ∧ i < spec.count + (countOf oldF k - spec.count) := by
          rw [List.mem_reverse]
          exact List.mem_range'_1
        rw [decide_eq_decide]
        rw [hmem]
        omega
      rw [hcong, filter_lt_range spec.count (countOf oldF k) (Nat.le_of_lt hdown)]

/-- Witness for C2: scaling "web" from 1 to 3 schedules indices [1, 3);
scaling "web" from 3 to 1 unschedules indices 2 then 1, leaving [0, 1). -/
theorem C2_translator_diff_witness :
    ((countOf [("web", ProcessSpec.mk "./run" 1)] "web" <
        (ProcessSpec.mk "./run" 3).count) ∧
     indicesFor (translateFormation [("web", ProcessSpec.mk "./run" 1)]
        [("web", ProcessSpec.mk "./run" 3)]).1 "web" = [1, 2]) ∧
    ((ProcessSpec.mk "./run" 1).count <
        countOf [("web", ProcessSpec.mk "./run" 3)] "web" ∧
     indicesFor (translateFormation [("web", ProcessSpec.mk "./run" 3)]
        [("web", ProcessSpec.mk "./run" 1)]).2 "web" = [2, 1]) := by
  constructor
  · refine ⟨by decide, ?_⟩
    have h := ((C2_translator_diff [("web", ProcessSpec.mk "./run" 1)]
        [("web", ProcessSpec.mk "./run" 3)] (by decide) (by decide)
        "web" (ProcessSpec.mk "./run" 3) (by decide)).1 (by decide)).1
    rw [h]
    decide
  · refine ⟨by decide, ?_⟩
    have h := ((C2_translator_diff [("web", ProcessSpec.mk "./run" 3)]
        [("web", ProcessSpec.mk "./run" 1)] (by decide) (by decide)
        "web" (ProcessSpec.mk "./run" 1) (by decide)).2.2 (by decide)).1
    rw [h]
    decide

/-- Diffing a formation with unique keys against itself yields no scheduler
operations. -/
theorem translateFormation_self (f : Formation) (hnd : (alKeys f).Nodup) :
    translateFormation f f = ([], []) := by
  unfold translateFormation
  have h1 : (f.flatMap fun p => schedJobs p.1 p.2.command (countOf f p.1) p.2.count) = [] := by
    refine List.flatMap_eq_nil_iff.mpr (fun p hp => ?_)
    have hc : countOf f p.1 = p.2.count := by
      rw [countOf, lookup_of_nodup f hnd p.1 p.2 hp]
    rw [hc]
    unfold schedJobs
    rw [List.drop_of_length_le (by simp)]
    rfl
  have h2 : (f.flatMap fun p => unschedJobs p.1 p.2.command p.2.count (countOf f p.1)) = [] := by
    refine List.flatMap_eq_nil_iff.mpr (fun p hp => ?_)
    have hc : countOf f p.1 = p.2.count := by
      rw [countOf, lookup_of_nodup f hnd p.1 p.2 hp]
    rw [hc]
    unfold unschedJobs
    rw [List.drop_of_length_le (by simp)]
    rfl
  rw [h1, h2]

/-- `scaleRelease` on an invalid quantity map: validation failure, state
untouched. -/
theorem scaleRelease_invalid (st : ManagerState) (r : Release) (c : Config)
    (s : Slug) (f : Formation) (qm : ProcessQuantityMap)
    (h : validQuantities f qm = false) :
    scaleRelease st r c s f qm =
      (st, some (Err.validation "found process type that does not exist")) := by
  simp [scaleRelease, h]

/-- `scaleRelease` on a valid quantity map: persists the merged Formation and
logs the translator's diff as scheduler calls. -/
theorem scaleRelease_valid (st : ManagerState) (r : Release) (c : Config)
    (s : Slug) (f : Formation) (qm : ProcessQuantityMap)
    (h : validQuantities f qm = true) :
    scaleRelease st r c s f qm =
      ({ releases := st.releases,
         storedFormation := merge f qm,
         schedCalls := st.schedCalls
           ++ (translateFormation st.storedFormation (merge f qm)).1,
         unschedCalls := st.unschedCalls
           ++ (translateFormation st.storedFormation (merge f qm)).2 }, none) := by
  simp [scaleRelease, h]

/-- C1: a ScaleRelease call whose quantities map has a key that is not a
process type of the formation fails with a ValidationError and performs zero
scheduler calls — the returned state is exactly the input state, so its
Schedule/Unschedule logs and stored Formation are unchanged. -/
theorem C1_scale_validates (st : ManagerState) (r : Release) (c : Config)
    (s : Slug) (f : Formation) (qm : ProcessQuantityMap)
    (h : ∃ k ∈ alKeys qm, f.lookup k = none) :
    ∃ msg, scaleRelease st r c s f qm = (st, some (Err.validation msg)) := by
  obtain ⟨k, hkq, hkf⟩ := h
  have hv : validQuantities f qm = false := by
    cases hvv : validQuantities f qm
    · rfl
    · obtain ⟨p, hp, hpk⟩ := List.mem_map.mp hkq
      have h2 : qm.all (fun p => (f.lookup p.1).isSome) = true := hvv
      have hall : (f.lookup p.1).isSome = true := List.all_eq_true.mp h2 p hp
      rw [hpk, hkf] at hall
      cases hall
  exact ⟨_, scaleRelease_invalid st r c s f qm hv⟩

/-- Witness for C1: quantities {"worker": 2} against a Formation defining
only "web" fails with a ValidationError and leaves the state unchanged. -/
theorem C1_scale_validates_witness :
    (∃ k ∈ alKeys [("worker", 2)],
       (List.lookup k [("web", ProcessSpec.mk "./run" 1)]
          : Option ProcessSpec) = none) ∧
    ∃ msg,
      scaleRelease (ManagerState.mk [] [("web", ProcessSpec.mk "./run" 1)] [] [])
        (Release.mk "web-app" 1 "c1" "s1" [("web", ProcessSpec.mk "./run" 1)] "")
        (Config.mk "c1" []) (Slug.mk "s1" "img" [("web", "./run")])
        [("web", ProcessSpec.mk "./run" 1)] [("worker", 2)]
      = (ManagerState.mk [] [("web", ProcessSpec.mk "./run" 1)] [] [],
         some (Err.validation msg)) := by
  refine ⟨⟨"worker", by decide, by decide⟩, ?_⟩
  exact C1_scale_validates _ _ _ _ _ _ ⟨"worker", by decide, by decide⟩

/-- C5: ScaleRelease is idempotent — once a call has persisted the desired
Formation, repeating the call with the same requested Formation computes an
empty diff and issues no additional Schedule or Unschedule operations. -/
theorem C5_scale_idempotent (st st₁ : ManagerState) (r : Release) (c : Config)
    (s : Slug) (f : Formation) (qm : ProcessQuantityMap)
    (hnd : (alKeys f).Nodup)
    (h : scaleRelease st r c s f qm = (st₁, none)) :
    scaleRelease st₁ r c s f qm = (st₁, none) := by
  cases hv : validQuantities f qm
  · rw [scaleRelease_invalid st r c s f qm hv] at h
    simp at h
  · rw [scaleRelease_valid st r c s f qm hv] at h
    have hst : st₁ = ManagerState.mk st.releases (merge f qm)
        (st.schedCalls ++ (translateFormation st.storedFormation (merge f qm)).1)
        (st.unschedCalls ++ (translateFormation st.storedFormation (merge f qm)).2) := by
      have h1 := congrArg Prod.fst h
      simpa using h1.symm
    subst hst
    rw [scaleRelease_valid _ r c s f qm hv]
    have hself : translateFormation (merge f qm) (merge f qm) = ([], []) :=
      translateFormation_self (merge f qm) (by rw [merge_keys]; exact hnd)
    simp [hself]

/-- Witness for C5: after scaling an empty state to {"web": 2}, repeating the
same request changes nothing. -/
theorem C5_scale_idempotent_witness :
    scaleRelease
      (ManagerState.mk [] [("web", ProcessSpec.mk "./run" 2)]
        [Job.mk "web" 0 "./run", Job.mk "web" 1 "./run"] [])
      (Release.mk "web-app" 1 "c1" "s1" [("web", ProcessSpec.mk "./run" 2)] "")
      (Config.mk "c1" []) (Slug.mk "s1" "img" [("web", "./run")])
      [("web", ProcessSpec.mk "./run" 2)] [("web", 2)]
    = (ManagerState.mk [] [("web", ProcessSpec.mk "./run" 2)]
        [Job.mk "web" 0 "./run", Job.mk "web" 1 "./run"] [], none) := by
  exact C5_scale_idempotent
    (ManagerState.mk [] [] [] [])
    (ManagerState.mk [] [("web", ProcessSpec.mk "./run" 2)]
      [Job.mk "web" 0 "./run", Job.mk "web" 1 "./run"] [])
    (Release.mk "web-app" 1 "c1" "s1" [("web", ProcessSpec.mk "./run" 2)] "")
    (Config.mk "c1" []) (Slug.mk "s1" "img" [("web", "./run")])
    [("web", ProcessSpec.mk "./run" 2)] [("web", 2)]
    (by decide) (by decide)

/-- C8: ScaleRelease never modifies a Release and never creates one — the
stored Release list is returned unchanged in every case (so every Release's
Formation snapshot, Config reference and Slug reference are untouched), and
on success scaling only produces a new value of the App's current
Formation. -/
theorem C8_release_frame (st : ManagerState) (r : Release) (c : Config)
    (s : Slug) (f : Formation) (qm : ProcessQuantityMap) :
    (scaleRelease st r c s f qm).1.releases = st.releases ∧
    (validQuantities f qm = true →
      (scaleRelease st r c s f qm).1.storedFormation = merge f qm) := by
  cases hv : validQuantities f qm
  · rw [scaleRelease_invalid st r c s f qm hv]
    exact ⟨rfl, fun hcontra => absurd hcontra (by simp)⟩
  · rw [scaleRelease_valid st r c s f qm hv]
    exact ⟨rfl, fun _ => rfl⟩

/-- Witness for C8 at a concrete scale-up call. -/
theorem C8_release_frame_witness :
    (scaleRelease
      (ManagerState.mk
        [Release.mk "web-app" 1 "c1" "s1" [("web", ProcessSpec.mk "./run" 1)] ""]
        [("web", ProcessSpec.mk "./run" 1)] [] [])
      (Release.mk "web-app" 1 "c1" "s1" [("web", ProcessSpec.mk "./run" 1)] "")
      (Config.mk "c1" []) (Slug.mk "s1" "img" [("web", "./run")])
      [("web", ProcessSpec.mk "./run" 1)] [("web", 3)]).1.releases
    = [Release.mk "web-app" 1 "c1" "s1" [("web", ProcessSpec.mk "./run" 1)] ""] ∧
    validQuantities [("web", ProcessSpec.mk "./run" 1)] [("web", 3)] = true ∧
    (scaleRelease
      (ManagerState.mk
        [Release.mk "web-app" 1 "c1" "s1" [("web", ProcessSpec.mk "./run" 1)] ""]
        [("web", ProcessSpec.mk "./run" 1)] [] [])
      (Release.mk "web-app" 1 "c1" "s1" [("web", ProcessSpec.mk "./run" 1)] "")
      (Config.mk "c1" []) (Slug.mk "s1" "img" [("web", "./run")])
      [("web", ProcessSpec.mk "./run" 1)] [("web", 3)]).1.storedFormation
    = merge [("web", ProcessSpec.mk "./run" 1)] [("web", 3)] := by
  refine ⟨(C8_release_frame _ _ _ _ _ _).1, by decide,
          (C8_release_frame _ _ _ _ _ _).2 (by decide)⟩

/-- `maxVersion` over a cons whose head belongs to the App. -/
theorem maxVersion_cons_eq (r : Release) (rs : List Release) (app : String)
    (h : r.app = app) :
    maxVersion (r :: rs) app = max r.version (maxVersion rs app) := by
  unfold maxVersion
  simp [List.filter_cons, h]

/-- `maxVersion` over a cons whose head belongs to another App. -/
theorem maxVersion_cons_ne (r : Release) (rs : List Release) (app : String)
    (h : ¬r.app = app) :
    maxVersion (r :: rs) app = maxVersion rs app := by
  unfold maxVersion
  simp [List.filter_cons, beq_false_of_ne h]

/-- Every stored version of an App is bounded by `maxVersion`. -/
theorem le_maxVersion (rs : List Release) (app : String) (r : Release)
    (hm : r ∈ rs) (ha : r.app = app) : r.version ≤ maxVersion rs app := by
  induction rs with
  | nil => cases hm
  | cons hd tl ih =>
    rcases List.mem_cons.mp hm with h | h
    · subst h
      rw [maxVersion_cons_eq _ _ _ ha]
      exact le_max_left _ _
    · by_cases hh : hd.app = app
      · rw [maxVersion_cons_eq hd tl app hh]
        exact le_trans (ih h) (le_max_right _ _)
      · rw [maxVersion_cons_ne hd tl app hh]
        exact ih h

/-- `releasesCreate` always succeeds sequentially: the computed next version
is fresh, so the uniqueness-constraint check passes. -/
theorem releasesCreate_eq (rs : List Release) (app : String) (c : Config)
    (sl : Slug) (d : String) :
    releasesCreate rs app c sl d =
      .ok (Release.mk app (maxVersion rs app + 1) c.id sl.id
             (match latestRelease rs app with
              | some prev => prev.formation
              | none => slugFormation sl) d,
           Release.mk app (maxVersion rs app + 1) c.id sl.id
             (match latestRelease rs app with
              | some prev => prev.formation
              | none => slugFormation sl) d :: rs) := by
  have hany : rs.any (fun r0 =>
      r0.app == app && r0.version == maxVersion rs app + 1) = false := by
    cases ha : rs.any (fun r0 =>
        r0.app == app && r0.version == maxVersion rs app + 1)
    · rfl
    · obtain ⟨x, hx, hcond⟩ := List.any_eq_true.mp ha
      have hxa : x.app = app := by
        have := (Bool.and_eq_true _ _).mp hcond
        exact beq_iff_eq.mp this.1
      have hxv : x.version = maxVersion rs app + 1 := by
        have := (Bool.and_eq_true _ _).mp hcond
        exact beq_iff_eq.mp this.2
      have hle := le_maxVersion rs app x hx hxa
      omega
    
  unfold releasesCreate insertRelease
  simp [hany]

/-- C3: versions are strictly increasing per App and never reused — a new
Release receives the App's highest existing version plus one; a concurrent
create that computed the same version from the same read fails its insert
with a ConflictError once the first commit lands, and its retry receives
version N + 1; version uniqueness of the store is preserved. -/
theorem C3_version_monotone (rs : List Release) (app : String) (c : Config)
    (sl : Slug) (d : String) :
    (∀ r rs', releasesCreate rs app c sl d = .ok (r, rs') →
       r.version = maxVersion rs app + 1 ∧
       (∀ r' ∈ rs, r'.app = app → r'.version < r.version) ∧
       rs' = r :: rs ∧
       (UniqueVersions rs → UniqueVersions rs')) ∧
    (∀ r rs', releasesCreate rs app c sl d = .ok (r, rs') →
       (∀ r2 : Release, r2.app = app → r2.version = maxVersion rs app + 1 →
          insertRelease rs' r2 = .error .conflict) ∧
       (∀ r3 rs'', releasesCreate rs' app c sl d = .ok (r3, rs'') →
          r3.version = r.version + 1)) := by
  constructor
  · intro r rs' h
    rw [releasesCreate_eq] at h
    injection h with h
    injection h with h1 h2
    subst h1; subst h2
    refine ⟨rfl, ?_, rfl, ?_⟩
    · intro r' hm ha
      have := le_maxVersion rs app r' hm ha
      dsimp only
      omega
    · intro hu r1 h1 r2 h2 happ hver
      have hbound : ∀ r' ∈ rs, r'.app = app → r'.version < maxVersion rs app + 1 := by
        intro r' hm ha
        have := le_maxVersion rs app r' hm ha
        omega
      rcases List.mem_cons.mp h1 with hc1 | hc1 <;>
        rcases List.mem_cons.mp h2 with hc2 | hc2
      · rw [hc1, hc2]
      · subst hc1
        have ha2 : r2.app = app := by simpa using happ.symm
        have := hbound r2 hc2 ha2
        dsimp only at hver
        omega
      · subst hc2
        have ha1 : r1.app = app := by simpa using happ
        have := hbound r1 hc1 ha1
        dsimp only at hver
        omega
      · exact hu r1 hc1 r2 hc2 happ hver
  · intro r rs' h
    rw [releasesCreate_eq] at h
    injection h with h
    injection h with h1 h2
    subst h1; subst h2
    constructor
    · intro r2 h2app h2ver
      unfold insertRelease
      have hcond : ((Release.mk app (maxVersion rs app + 1) c.id sl.id
          (match latestRelease rs app with
           | some prev => prev.formation
           | none => slugFormation sl) d).app == r2.app
          && (Release.mk app (maxVersion rs app + 1) c.id sl.id
          (match latestRelease rs app with
           | some prev => prev.formation
           | none => slugFormation sl) d).version == r2.version) = true := by
        show (app == r2.app && maxVersion rs app + 1 == r2.version) = true
        rw [h2app, h2ver]
        simp
      simp [List.any_cons, hcond]
    · intro r3 rs'' h3
      rw [releasesCreate_eq] at h3
      injection h3 with h3
      injection h3 with h31 h32
      subst h31
      have hm : maxVersion (Release.mk app (maxVersion rs app + 1) c.id sl.id
          (match latestRelease rs app with
           | some prev => prev.formation
           | none => slugFormation sl) d :: rs) app
          = maxVersion rs app + 1 := by
        rw [maxVersion_cons_eq _ _ _ rfl]
        dsimp only
        exact Nat.max_eq_left (by omega)
      dsimp only
      rw [hm]

/-- Witness for C3: with one stored Release at version 1, a create yields
version 2; a racing insert of another version-2 Release then fails with a
ConflictError. -/
theorem C3_version_monotone_witness :
    releasesCreate [Release.mk "web-app" 1 "c0" "s0" [("web", ProcessSpec.mk "./run" 1)] ""]
        "web-app" (Config.mk "c1" []) (Slug.mk "s1" "img" [("web", "./run")]) "v2"
      = .ok (Release.mk "web-app" 2 "c1" "s1" [("web", ProcessSpec.mk "./run" 1)] "v2",
             [Release.mk "web-app" 2 "c1" "s1" [("web", ProcessSpec.mk "./run" 1)] "v2",
              Release.mk "web-app" 1 "c0" "s0" [("web", ProcessSpec.mk "./run" 1)] ""]) ∧
    (Release.mk "web-app" 2 "c1" "s1" [("web", ProcessSpec.mk "./run" 1)] "v2").version
      = maxVersion [Release.mk "web-app" 1 "c0" "s0" [("web", ProcessSpec.mk "./run" 1)] ""]
          "web-app" + 1 ∧
    insertRelease
        [Release.mk "web-app" 2 "c1" "s1" [("web", ProcessSpec.mk "./run" 1)] "v2",
         Release.mk "web-app" 1 "c0" "s0" [("web", ProcessSpec.mk "./run" 1)] ""]
        (Release.mk "web-app" 2 "c9" "s9" [] "race")
      = .error .conflict := by
  refine ⟨rfl, ?_, ?_⟩
  · exact ((C3_version_monotone
      [Release.mk "web-app" 1 "c0" "s0" [("web", ProcessSpec.mk "./run" 1)] ""]
      "web-app" (Config.mk "c1" []) (Slug.mk "s1" "img" [("web", "./run")]) "v2").1
      (Release.mk "web-app" 2 "c1" "s1" [("web", ProcessSpec.mk "./run" 1)] "v2")
      [Release.mk "web-app" 2 "c1" "s1" [("web", ProcessSpec.mk "./run" 1)] "v2",
       Release.mk "web-app" 1 "c0" "s0" [("web", ProcessSpec.mk "./run" 1)] ""]
      rfl).1
  · exact (((C3_version_monotone
      [Release.mk "web-app" 1 "c0" "s0" [("web", ProcessSpec.mk "./run" 1)] ""]
      "web-app" (Config.mk "c1" []) (Slug.mk "s1" "img" [("web", "./run")]) "v2").2
      (Release.mk "web-app" 2 "c1" "s1" [("web", ProcessSpec.mk "./run" 1)] "v2")
      [Release.mk "web-app" 2 "c1" "s1" [("web", ProcessSpec.mk "./run" 1)] "v2",
       Release.mk "web-app" 1 "c0" "s0" [("web", ProcessSpec.mk "./run" 1)] ""]
      rfl).1
      (Release.mk "web-app" 2 "c9" "s9" [] "race") (by decide) (by decide))

/-- C6: scheduler backend selection is decided solely by the endpoint value —
the sentinel "fake" selects the in-memory fake, any other string is parsed as
a URL and selects the fleet backend built from it, and a parse failure yields
that error and no scheduler. -/
theorem C6_scheduler_selection (parse : String → Except Err URL) (s : String) :
    (s = "fake" → newScheduler parse s = (some Scheduler.fake, none)) ∧
    (s ≠ "fake" → ∀ u, parse s = .ok u →
       newScheduler parse s = (some (Scheduler.fleet u), none)) ∧
    (s ≠ "fake" → ∀ e, parse s = .error e →
       newScheduler parse s = (none, some e)) := by
  refine ⟨fun h => ?_, fun h u hu => ?_, fun h e he => ?_⟩
  · simp [newScheduler, h, NewFakeScheduler]
  · simp [newScheduler, h, hu, NewFleetScheduler]
  · simp [newScheduler, h, he]

/-- Witness for C6: the sentinel selects the fake, an URL endpoint selects
the fleet backend, and a failing parse propagates the error. -/
theorem C6_scheduler_selection_witness :
    newScheduler (fun str => .ok (URL.mk str)) "fake"
      = (some Scheduler.fake, none) ∧
    newScheduler (fun str => .ok (URL.mk str)) "http://fleet.local"
      = (some (Scheduler.fleet (URL.mk "http://fleet.local")), none) ∧
    newScheduler (fun _ => .error (Err.other "parse failure")) "%%bad"
      = (none, some (Err.other "parse failure")) :=
  ⟨(C6_scheduler_selection (fun str => .ok (URL.mk str)) "fake").1 rfl,
   (C6_scheduler_selection (fun str => .ok (URL.mk str)) "http://fleet.local").2.1
     (by decide) (URL.mk "http://fleet.local") rfl,
   (C6_scheduler_selection (fun _ => .error (Err.other "parse failure")) "%%bad").2.2
     (by decide) (Err.other "parse failure") rfl⟩

/-- C7: the fake scheduler is never a production fallback — for every
endpoint other than the sentinel, newScheduler returns the fleet backend or
an error, never the fake. -/
theorem C7_no_fake_fallback (parse : String → Except Err URL) (s : String)
    (h : s ≠ "fake") :
    (newScheduler parse s).1 ≠ some Scheduler.fake ∧
    (∀ sch, (newScheduler parse s).1 = some sch → ∃ u, sch = Scheduler.fleet u) ∧
    ((newScheduler parse s).1 = none → ((newScheduler parse s).2).isSome) := by
  unfold newScheduler
  rw [if_neg h]
  cases hp : parse s with
  | error e =>
    exact ⟨by simp, fun sch hs => by simp at hs, fun _ => by simp⟩
  | ok u =>
    refine ⟨by simp [NewFleetScheduler], fun sch hs => ⟨u, ?_⟩, fun hn => ?_⟩
    · have h2 : some (Scheduler.fleet u) = some sch := by
        simpa [NewFleetScheduler] using hs
      injection h2 with h2
      exact h2.symm
    · simp [NewFleetScheduler] at hn

/-- Witness for C7 at a non-sentinel endpoint. -/
theorem C7_no_fake_fallback_witness :
    ("http://fleet.local" ≠ "fake") ∧
    (newScheduler (fun str => .ok (URL.mk str)) "http://fleet.local").1
      ≠ some Scheduler.fake :=
  ⟨by decide,
   (C7_no_fake_fallback (fun str => .ok (URL.mk str)) "http://fleet.local"
     (by decide)).1⟩

/-- C9: every public method of the Empire facade is a pure delegation to its
service or store counterpart, with the same arguments and untransformed
results. -/
theorem C9_facade_delegation (e : GoEmpire) :
    (∀ t, e.AccessTokensFind t = e.AccessTokens.AccessTokensFind t) ∧
    (∀ a, e.AccessTokensCreate a = e.AccessTokens.AccessTokensCreate a) ∧
    (e.AppsAll = e.Store.AppsAll ()) ∧
    (∀ a, e.AppsCreate a = e.Store.AppsCreate a) ∧
    (∀ n, e.AppsFind n = e.Store.AppsFind n) ∧
    (∀ a, e.AppsDestroy a = e.Apps.AppsDestroy a) ∧
    (∀ a, e.ConfigsCurrent a = e.Configs.ConfigsCurrent a) ∧
    (∀ a v, e.ConfigsApply a v = e.Configs.ConfigsApply a v) ∧
    (∀ i, e.ConfigsFind i = e.Store.ConfigsFind i) ∧
    (∀ a, e.JobStatesByApp a = e.JobStates.JobStatesByApp a) ∧
    (∀ r, e.ProcessesAll r = e.Store.ProcessesAll r) ∧
    (∀ a c s d, e.ReleasesCreate a c s d = e.Releases.ReleasesCreate a c s d) ∧
    (∀ a, e.ReleasesFindByApp a = e.Store.ReleasesFindByApp a) ∧
    (∀ a v, e.ReleasesFindByAppAndVersion a v
       = e.Store.ReleasesFindByAppAndVersion a v) ∧
    (∀ a, e.ReleasesLast a = e.Store.ReleasesLast a) ∧
    (∀ r c s f qm, e.ScaleRelease r c s f qm
       = e.Manager.ScaleRelease r c s f qm) ∧
    (∀ i, e.SlugsFind i = e.Store.SlugsFind i) ∧
    (e.Reset = e.Store.Reset ()) :=
  ⟨fun _ => rfl, fun _ => rfl, rfl, fun _ => rfl, fun _ => rfl, fun _ => rfl,
   fun _ => rfl, fun _ _ => rfl, fun _ => rfl, fun _ => rfl, fun _ => rfl,
   fun _ _ _ _ => rfl, fun _ => rfl, fun _ _ => rfl, fun _ => rfl,
   fun _ _ _ _ _ => rfl, fun _ => rfl, rfl⟩

/-- `newScheduler` returns a scheduler whenever it returns no error. -/
theorem newScheduler_some_of_no_err (parse : String → Except Err URL)
    (s : String) (h : (newScheduler parse s).2 = none) :
    ((newScheduler parse s).1).isSome := by
  unfold newScheduler at h ⊢
  by_cases hs : s = "fake"
  · rw [if_pos hs]
    rfl
  · rw [if_neg hs] at h ⊢
    cases hp : parse s with
    | error e =>
      rw [hp] at h
      simp at h
    | ok u => rfl

/-- C10: `New` returns either an Empire with a nil error or no Empire with
the collaborator's error propagated unchanged (database first, then
scheduler, then extractor, in source order); on success the Manager's jobs
service and the JobStates service share the single scheduler instance chosen
by `newScheduler`, and that scheduler is present. -/
theorem C10_New_wiring (env : Env) (opts : Options) :
    (((New env opts).1.isSome ∧ (New env opts).2 = none) ∨
     ((New env opts).1 = none ∧ ((New env opts).2).isSome)) ∧
    (∀ e, (env.newDB opts.DB).2 = some e → New env opts = (none, some e)) ∧
    ((env.newDB opts.DB).2 = none →
      ∀ e, (newScheduler env.parseURL opts.Fleet.API).2 = some e →
        New env opts = (none, some e)) ∧
    ((env.newDB opts.DB).2 = none →
      (newScheduler env.parseURL opts.Fleet.API).2 = none →
      ∀ e, (env.NewExtractor opts.Docker.Socket opts.Docker.CertPath
              opts.Docker.Auth).2 = some e →
        New env opts = (none, some e)) ∧
    (∀ emp, (New env opts).1 = some emp →
       emp.Manager.JobsService.scheduler
         = (newScheduler env.parseURL opts.Fleet.API).1 ∧
       emp.JobStates.scheduler
         = (newScheduler env.parseURL opts.Fleet.API).1 ∧
       emp.Manager.JobsService.scheduler = emp.JobStates.scheduler ∧
       (emp.Manager.JobsService.scheduler).isSome) := by
  rcases hdb : env.newDB opts.DB with ⟨dbv, e1⟩
  cases e1 with
  | some e =>
    have hNew : New env opts = (none, some e) := by
      simp [New, hdb]
    refine ⟨Or.inr (by simp [hNew]), fun e' he' => ?_, fun hn => ?_,
            fun hn _ _ _ => ?_, fun emp hemp => ?_⟩
    · simp at he'
      rw [hNew, he']
    · simp at hn
    · simp at hn
    · rw [hNew] at hemp
      simp at hemp
  | none =>
    rcases hsch : newScheduler env.parseURL opts.Fleet.API with ⟨schv, e2⟩
    cases e2 with
    | some e =>
      have hNew : New env opts = (none, some e) := by
        simp [New, hdb, hsch]
      refine ⟨Or.inr (by simp [hNew]), fun e' he' => ?_, fun _ e' he' => ?_,
              fun _ hn _ _ => ?_, fun emp hemp => ?_⟩
      · simp at he'
      · simp at he'
        rw [hNew, he']
      · simp at hn
      · rw [hNew] at hemp
        simp at hemp
    | none =>
      rcases hext : env.NewExtractor opts.Docker.Socket opts.Docker.CertPath
          opts.Docker.Auth with ⟨extv, e3⟩
      cases e3 with
      | some e =>
        have hNew : New env opts = (none, some e) := by
          simp [New, hdb, hsch, hext]
        refine ⟨Or.inr (by simp [hNew]), fun e' he' => ?_, fun _ e' he' => ?_,
                fun _ _ e' he' => ?_, fun emp hemp => ?_⟩
        · simp at he'
        · simp at he'
        · simp at he'
          rw [hNew, he']
        · rw [hNew] at hemp
          simp at hemp
      | none =>
        have hNew : New env opts =
            (some (EmpireC.mk ⟨dbv⟩ ⟨opts.Secret⟩ ⟨⟨dbv⟩, ⟨⟨dbv⟩, schv⟩⟩ ⟨⟨dbv⟩⟩
               ⟨⟨dbv⟩, schv⟩ ⟨⟨⟨dbv⟩, schv⟩, ⟨dbv⟩⟩ ⟨⟨dbv⟩, ⟨⟨⟨dbv⟩, schv⟩, ⟨dbv⟩⟩⟩
               ⟨⟨dbv⟩, extv⟩
               ⟨opts.Docker.Organization,
                ⟨⟨⟨dbv⟩, ⟨⟨dbv⟩, schv⟩⟩, ⟨⟨dbv⟩⟩, ⟨⟨dbv⟩, extv⟩,
                 ⟨⟨dbv⟩, ⟨⟨⟨dbv⟩, schv⟩, ⟨dbv⟩⟩⟩⟩,
                ⟨⟨dbv⟩, ⟨⟨dbv⟩, schv⟩⟩⟩), none) := by
          simp [New, hdb, hsch, hext]
        have hsome : schv.isSome := by
          have h2 := newScheduler_some_of_no_err env.parseURL opts.Fleet.API
            (by rw [hsch])
          rw [hsch] at h2
          exact h2
        refine ⟨Or.inl (by simp [hNew]), fun e' he' => ?_, fun _ e' he' => ?_,
                fun _ _ e' he' => ?_, fun emp hemp => ?_⟩
        · simp at he'
        · simp at he'
        · simp at he'
        · rw [hNew] at hemp
          simp only [Option.some.injEq] at hemp
          subst hemp
          exact ⟨rfl, rfl, rfl, hsome⟩

/-- Witness for C10: a failing database collaborator's error is propagated
unchanged with no Empire, and at a working configuration the constructed
Empire holds the scheduler chosen by newScheduler in its Manager wiring. -/
theorem C10_New_wiring_witness :
    New (Env.mk (fun _ => (none, some (Err.other "db down")))
          (fun str => .ok (URL.mk str))
          (fun a b _ => (some (Extractor.mk a b), none)))
        (Options.mk (DockerOptions.mk "org" "/sock" "/certs" [])
          (FleetOptions.mk "http://fleet.local") "secret" "postgres://db")
      = (none, some (Err.other "db down")) ∧
    ((EmpireC.mk (StoreC.mk (some (DB.mk "postgres://db")))
        (AccessTokensServiceC.mk "secret")
        (AppsServiceC.mk (StoreC.mk (some (DB.mk "postgres://db")))
          (JobsServiceC.mk (StoreC.mk (some (DB.mk "postgres://db")))
            (some (Scheduler.fleet (URL.mk "http://fleet.local")))))
        (ConfigsServiceC.mk (StoreC.mk (some (DB.mk "postgres://db"))))
        (JobStatesServiceC.mk (StoreC.mk (some (DB.mk "postgres://db")))
          (some (Scheduler.fleet (URL.mk "http://fleet.local"))))
        (ManagerC.mk
          (JobsServiceC.mk (StoreC.mk (some (DB.mk "postgres://db")))
            (some (Scheduler.fleet (URL.mk "http://fleet.local"))))
          (StoreC.mk (some (DB.mk "postgres://db"))))
        (ReleasesServiceC.mk (StoreC.mk (some (DB.mk "postgres://db")))
          (ManagerC.mk
            (JobsServiceC.mk (StoreC.mk (some (DB.mk "postgres://db")))
              (some (Scheduler.fleet (URL.mk "http://fleet.local"))))
            (StoreC.mk (some (DB.mk "postgres://db")))))
        (SlugsServiceC.mk (StoreC.mk (some (DB.mk "postgres://db")))
          (some (Extractor.mk "/sock" "/certs")))
        (CommitDeployerC.mk "org"
          (ImageDeployerC.mk
            (AppsServiceC.mk (StoreC.mk (some (DB.mk "postgres://db")))
              (JobsServiceC.mk (StoreC.mk (some (DB.mk "postgres://db")))
                (some (Scheduler.fleet (URL.mk "http://fleet.local")))))
            (ConfigsServiceC.mk (StoreC.mk (some (DB.mk "postgres://db"))))
            (SlugsServiceC.mk (StoreC.mk (some (DB.mk "postgres://db")))
              (some (Extractor.mk "/sock" "/certs")))
            (ReleasesServiceC.mk (StoreC.mk (some (DB.mk "postgres://db")))
              (ManagerC.mk
                (JobsServiceC.mk (StoreC.mk (some (DB.mk "postgres://db")))
                  (some (Scheduler.fleet (URL.mk "http://fleet.local"))))
                (StoreC.mk (some (DB.mk "postgres://db"))))))
          (AppsServiceC.mk (StoreC.mk (some (DB.mk "postgres://db")))
            (JobsServiceC.mk (StoreC.mk (some (DB.mk "postgres://db")))
              (some (Scheduler.fleet
                (URL.mk "http://fleet.local"))))))).Manager.JobsService.scheduler).isSome := by
  constructor
  · exact (C10_New_wiring
      (Env.mk (fun _ => (none, some (Err.other "db down")))
        (fun str => .ok (URL.mk str))
        (fun a b _ => (some (Extractor.mk a b), none)))
      (Options.mk (DockerOptions.mk "org" "/sock" "/certs" [])
        (FleetOptions.mk "http://fleet.local") "secret" "postgres://db")).2.1
      (Err.other "db down") rfl
  · exact ((C10_New_wiring
      (Env.mk (fun s => (some (DB.mk s), none))
        (fun str => .ok (URL.mk str))
        (fun a b _ => (some (Extractor.mk a b), none)))
      (Options.mk (DockerOptions.mk "org" "/sock" "/certs" [])
        (FleetOptions.mk "http://fleet.local") "secret" "postgres://db")).2.2.2.2
      _ rfl).2.2.2
